import Mathlib

/-!
Shallow embedding of GraphMetrics/ddsketch-go.

Source files embedded:
- src/ddsketch/mapping/logarithmic_mapping.go : the logarithmic index mapping
- src/ddsketch/ddsketch.go : the DDSketch orchestrator
- src/dataset/dataset.go : the naive exact-quantile baseline

Go float64 values and arithmetic are modelled over the real numbers; the
Go cast from float64 to int (truncation toward zero) is modelled explicitly.
The bucket store package (ddsketch/store) and the helpers of
index_mapping.go (withinTolerance, minNormalFloat64, expOverflow) are not
part of the visible source tree; they are modelled from the specification
and are marked as such in their doc comments.
-/

namespace DDSketchGo

/-- Go constant math.MinInt16 used by computeMinIndexableValue. -/
def minInt16 : ℤ := -32768

/-- Go constant math.MaxInt16 used by computeMaxIndexableValue. -/
def maxInt16 : ℤ := 32767

/-- Modelled from the spec: the constant minNormalFloat64, declared in
index_mapping.go which is not under src/. The spec describes it as the
smallest positive normal double-precision float, i.e. 2 to the power -1022. -/
noncomputable def minNormalFloat64 : ℝ := 2 ^ (-1022 : ℤ)

/-- Modelled from the spec: the constant expOverflow, declared in
index_mapping.go which is not under src/. The spec describes it as an
empirically safe exponent ceiling for exp in double precision. -/
noncomputable def expOverflow : ℝ := 709.4361393031

/-- Go conversion from float64 to int: truncation toward zero. -/
noncomputable def goFloatToInt (x : ℝ) : ℤ := if 0 ≤ x then ⌊x⌋ else ⌈x⌉

/-- The LogarithmicMapping struct of logarithmic_mapping.go. -/
structure LogarithmicMapping where
  relativeAccuracy : ℝ
  multiplier : ℝ
  normalizedIndexOffset : ℝ
  minIndexableValue : ℝ
  maxIndexableValue : ℝ

namespace LogarithmicMapping

/-- computeMinIndexableValue of logarithmic_mapping.go; it reads only the
relativeAccuracy, multiplier and normalizedIndexOffset fields, so it is
phrased on those three parameters (it runs before the cached fields exist). -/
noncomputable def computeMinIndexableValue (ra mult off : ℝ) : ℝ :=
  max (Real.exp (((minInt16 : ℝ) - off) / mult + 1))
    (minNormalFloat64 * (1 + ra) / (1 - ra))

/-- computeMaxIndexableValue of logarithmic_mapping.go, phrased like
computeMinIndexableValue on the three parameters it reads. -/
noncomputable def computeMaxIndexableValue (ra mult off : ℝ) : ℝ :=
  min (Real.exp (((maxInt16 : ℝ) - off) / mult - 1))
    (Real.exp expOverflow / (1 + ra))

/-- Common tail of both Go constructors: build the struct from the three
primary fields and fill in the two cached indexable-value bounds. -/
noncomputable def build (ra mult off : ℝ) : LogarithmicMapping :=
  { relativeAccuracy := ra
    multiplier := mult
    normalizedIndexOffset := off
    minIndexableValue := computeMinIndexableValue ra mult off
    maxIndexableValue := computeMaxIndexableValue ra mult off }

end LogarithmicMapping

/-- NewLogarithmicMapping of logarithmic_mapping.go. Note Log1p x = log (1 + x). -/
noncomputable def NewLogarithmicMapping (relativeAccuracy : ℝ) :
    Except String LogarithmicMapping :=
  if relativeAccuracy ≤ 0 ∨ 1 ≤ relativeAccuracy then
    .error "The relative accuracy must be between 0 and 1."
  else
    .ok (LogarithmicMapping.build relativeAccuracy
      (1 / Real.log (1 + 2 * relativeAccuracy / (1 - relativeAccuracy))) 0)

/-- NewLogarithmicMappingWithGamma of logarithmic_mapping.go. -/
noncomputable def NewLogarithmicMappingWithGamma (gamma indexOffset : ℝ) :
    Except String LogarithmicMapping :=
  if gamma ≤ 1 then
    .error "Gamma must be greater than 1."
  else
    .ok (LogarithmicMapping.build (1 - 2 / (1 + gamma)) (1 / Real.log gamma) indexOffset)

/-- Modelled from the spec: withinTolerance is declared in index_mapping.go,
which is not under src/. The spec describes the comparison used by Equals as
agreement within an absolute tolerance. -/
def withinTolerance (x y tol : ℝ) : Prop := |x - y| ≤ tol

namespace LogarithmicMapping

/-- Equals of logarithmic_mapping.go (the interface type assertion always
succeeds in this model, where the only index mapping is the logarithmic one). -/
def Equals (m o : LogarithmicMapping) : Prop :=
  withinTolerance m.multiplier o.multiplier 1e-12 ∧
  withinTolerance m.normalizedIndexOffset o.normalizedIndexOffset 1e-12

/-- Index of logarithmic_mapping.go: log value times multiplier plus offset,
truncated toward zero when nonnegative and truncated-minus-one otherwise. -/
noncomputable def Index (m : LogarithmicMapping) (value : ℝ) : ℤ :=
  let index := Real.log value * m.multiplier + m.normalizedIndexOffset
  if 0 ≤ index then goFloatToInt index else goFloatToInt index - 1

/-- Value of logarithmic_mapping.go. -/
noncomputable def Value (m : LogarithmicMapping) (index : ℤ) : ℝ :=
  Real.exp (((index : ℝ) - m.normalizedIndexOffset) / m.multiplier) *
    (1 + m.relativeAccuracy)

/-- MinIndexableValue accessor of logarithmic_mapping.go. -/
noncomputable def MinIndexableValue (m : LogarithmicMapping) : ℝ := m.minIndexableValue

/-- MaxIndexableValue accessor of logarithmic_mapping.go. -/
noncomputable def MaxIndexableValue (m : LogarithmicMapping) : ℝ := m.maxIndexableValue

/-- RelativeAccuracy accessor of logarithmic_mapping.go. -/
noncomputable def RelativeAccuracy (m : LogarithmicMapping) : ℝ := m.relativeAccuracy

end LogarithmicMapping

/-- The raw (pre-truncation) index expression of Index. -/
noncomputable def rawIndex (m : LogarithmicMapping) (value : ℝ) : ℝ :=
  Real.log value * m.multiplier + m.normalizedIndexOffset

theorem index_eq_raw_branches (m : LogarithmicMapping) (v : ℝ) :
    m.Index v = if 0 ≤ rawIndex m v then ⌊rawIndex m v⌋ else ⌈rawIndex m v⌉ - 1 := by
  unfold LogarithmicMapping.Index rawIndex goFloatToInt
  by_cases h : 0 ≤ Real.log v * m.multiplier + m.normalizedIndexOffset
  · simp [h]
  · simp [h]

/-- Whatever branch Index takes, the produced integer lies within distance one
below the raw index expression. -/
theorem index_bounds (m : LogarithmicMapping) (v : ℝ) :
    ((m.Index v : ℝ) ≤ rawIndex m v) ∧ (rawIndex m v - 1 ≤ (m.Index v : ℝ)) := by
  rw [index_eq_raw_branches]
  set r := rawIndex m v with hr
  by_cases h : 0 ≤ r
  · rw [if_pos h]
    refine ⟨Int.floor_le r, ?_⟩
    have := Int.lt_floor_add_one r
    linarith
  · rw [if_neg h]
    constructor
    · have h1 : (⌈r⌉ : ℤ) ≤ ⌊r⌋ + 1 := Int.ceil_le_floor_add_one r
      have h2 : (⌊r⌋ : ℝ) ≤ r := Int.floor_le r
      push_cast
      have : ((⌈r⌉ : ℤ) : ℝ) ≤ ((⌊r⌋ : ℤ) : ℝ) + 1 := by exact_mod_cast h1
      linarith
    · have h3 : r ≤ (⌈r⌉ : ℝ) := Int.le_ceil r
      push_cast
      linarith

/-- Mapping used to exhibit the negative-exact-integer boundary case of Index:
the output of NewLogarithmicMappingWithGamma at gamma = e and offset -1. -/
noncomputable def cexMapping : LogarithmicMapping :=
  LogarithmicMapping.build (1 - 2 / (1 + Real.exp 1)) (1 / Real.log (Real.exp 1)) (-1)

theorem one_lt_exp_one : (1 : ℝ) < Real.exp 1 := by
  have h := Real.add_one_le_exp 1
  linarith

/-- C2 counterexample: for the mapping built by
NewLogarithmicMappingWithGamma (exp 1) (-1) and the input value 1, the raw
index expression is exactly the negative integer -1, and Index returns -2,
not the floor -1; so the cast-to-int-minus-one branch disagrees with floor
on exact negative integers. -/
theorem C2_counterexample :
    NewLogarithmicMappingWithGamma (Real.exp 1) (-1) = .ok cexMapping ∧
    cexMapping.Index 1 = -2 ∧
    ⌊Real.log 1 * cexMapping.multiplier + cexMapping.normalizedIndexOffset⌋ = -1 ∧
    cexMapping.Index 1 ≠
      ⌊Real.log 1 * cexMapping.multiplier + cexMapping.normalizedIndexOffset⌋ := by
  have hcond : ¬ (Real.exp 1 ≤ 1) := not_le.mpr one_lt_exp_one
  have hoff : cexMapping.normalizedIndexOffset = -1 := rfl
  have hraw : Real.log 1 * cexMapping.multiplier + cexMapping.normalizedIndexOffset
      = -1 := by
    rw [Real.log_one, hoff]; ring
  have hidx : cexMapping.Index 1 = -2 := by
    rw [index_eq_raw_branches]
    have hr : rawIndex cexMapping 1 = -1 := hraw
    rw [hr, if_neg (by norm_num)]
    have : ((-1 : ℤ) : ℝ) = (-1 : ℝ) := by norm_num
    rw [← this, Int.ceil_intCast]
    decide
  have hfl : ⌊Real.log 1 * cexMapping.multiplier + cexMapping.normalizedIndexOffset⌋
      = -1 := by
    rw [hraw]
    have : ((-1 : ℤ) : ℝ) = (-1 : ℝ) := by norm_num
    rw [← this, Int.floor_intCast]
  refine ⟨?_, hidx, hfl, ?_⟩
  · rw [NewLogarithmicMappingWithGamma, if_neg hcond]
    rfl
  · rw [hidx, hfl]; decide

/-- C2 amended: Index computes the floor of the raw expression except when the
raw expression is an exact negative integer, where it returns floor minus one. -/
theorem C2_index_floor (m : LogarithmicMapping) (v : ℝ) :
    (¬ (rawIndex m v < 0 ∧ ∃ n : ℤ, (n : ℝ) = rawIndex m v) →
      m.Index v = ⌊rawIndex m v⌋) ∧
    ((rawIndex m v < 0 ∧ ∃ n : ℤ, (n : ℝ) = rawIndex m v) →
      m.Index v = ⌊rawIndex m v⌋ - 1) := by
  rw [index_eq_raw_branches]
  set r := rawIndex m v with hr
  constructor
  · intro hni
    by_cases h : 0 ≤ r
    · rw [if_pos h]
    · rw [if_neg h]
      push_neg at hni
      have hne : (⌊r⌋ : ℝ) ≠ r := hni (not_le.mp h) ⌊r⌋
      have hlt : (⌊r⌋ : ℝ) < r := lt_of_le_of_ne (Int.floor_le r) hne
      have hceil : ⌊r⌋ + 1 ≤ ⌈r⌉ := Int.add_one_le_ceil_iff.mpr hlt
      have hceil2 : ⌈r⌉ ≤ ⌊r⌋ + 1 := Int.ceil_le_floor_add_one r
      omega
  · rintro ⟨hneg, n, hn⟩
    rw [if_neg (not_le.mpr hneg)]
    rw [← hn, Int.ceil_intCast, Int.floor_intCast]

/-- Mapping with multiplier one and offset zero used as a concrete instance
for witnesses about Index. -/
noncomputable def witIndexMapping : LogarithmicMapping := LogarithmicMapping.build 0 1 0

/-- C2 witness: at the concrete input exp 1 the raw expression is the
nonnegative value 1, and Index returns its floor. -/
theorem C2_witness : witIndexMapping.Index (Real.exp 1) = 1 := by
  have hraw : rawIndex witIndexMapping (Real.exp 1) = 1 := by
    unfold rawIndex
    have hm : witIndexMapping.multiplier = 1 := rfl
    have ho : witIndexMapping.normalizedIndexOffset = 0 := rfl
    rw [hm, ho, Real.log_exp]; ring
  have h := (C2_index_floor witIndexMapping (Real.exp 1)).1
  rw [hraw] at h
  have hcond : ¬ ((1 : ℝ) < 0 ∧ ∃ n : ℤ, (n : ℝ) = 1) := by
    intro hc
    exact absurd hc.1 (by norm_num)
  rw [h hcond]
  norm_num

/-- General reconstruction bound for a logarithmic mapping whose multiplier is
the reciprocal log of a ratio gamma bigger than one and whose accuracy
satisfies 1 + accuracy = gamma * (1 - accuracy). Both constructors produce
such mappings. The bound holds for every positive value, including the
boundary inputs whose raw index is an exact negative integer, where Index
lands one bucket low but the reconstruction still sits within the bound. -/
theorem value_index_roundtrip (m : LogarithmicMapping) (gamma : ℝ)
    (hγ : 1 < gamma)
    (hmul : m.multiplier = 1 / Real.log gamma)
    (hsum : 1 + m.relativeAccuracy = gamma * (1 - m.relativeAccuracy))
    (hpos : 0 < 1 + m.relativeAccuracy)
    (v : ℝ) (hv : 0 < v) :
    |m.Value (m.Index v) / v - 1| ≤ m.relativeAccuracy := by
  obtain ⟨hi_le, hi_ge⟩ := index_bounds m v
  set i : ℤ := m.Index v
  set r := rawIndex m v with hrdef
  set L := Real.log gamma with hLdef
  have hL : 0 < L := Real.log_pos hγ
  have hγ0 : 0 < gamma := by linarith
  have hL0 : L ≠ 0 := ne_of_gt hL
  have hlogv : Real.log v = (r - m.normalizedIndexOffset) * L := by
    rw [hrdef, rawIndex, hmul]
    field_simp
    ring
  have hdiv : ((i : ℝ) - m.normalizedIndexOffset) / (1 / L) =
      ((i : ℝ) - m.normalizedIndexOffset) * L := by
    field_simp
  have hval : m.Value i =
      Real.exp (((i : ℝ) - m.normalizedIndexOffset) * L) * (1 + m.relativeAccuracy) := by
    rw [LogarithmicMapping.Value, hmul, hdiv]
  have hv_exp : v = Real.exp ((r - m.normalizedIndexOffset) * L) := by
    rw [← hlogv, Real.exp_log hv]
  have hratio : m.Value i / v =
      Real.exp (((i : ℝ) - r) * L) * (1 + m.relativeAccuracy) := by
    rw [hval]
    conv_lhs => rw [hv_exp]
    rw [mul_div_right_comm, ← Real.exp_sub]
    congr 2
    ring
  have hE_le : Real.exp (((i : ℝ) - r) * L) ≤ 1 := by
    rw [Real.exp_le_one_iff]
    have hd : (i : ℝ) - r ≤ 0 := by linarith
    nlinarith
  have hE_ge : Real.exp (-L) ≤ Real.exp (((i : ℝ) - r) * L) := by
    apply Real.exp_le_exp.mpr
    have hd : (-1 : ℝ) ≤ (i : ℝ) - r := by linarith
    nlinarith
  have hexp_negL : Real.exp (-L) = gamma⁻¹ := by
    rw [Real.exp_neg, hLdef, Real.exp_log hγ0]
  have hinv : gamma⁻¹ * (1 + m.relativeAccuracy) = 1 - m.relativeAccuracy := by
    rw [hsum]
    field_simp
  have hupper : m.Value i / v ≤ 1 + m.relativeAccuracy := by
    rw [hratio]
    nlinarith
  have hlower : 1 - m.relativeAccuracy ≤ m.Value i / v := by
    rw [hratio, ← hinv, ← hexp_negL]
    exact mul_le_mul_of_nonneg_right hE_ge hpos.le
  rw [abs_le]
  constructor <;> linarith

/-- The minimum indexable value of any mapping with accuracy strictly between
zero and one is positive (it is at least the scaled smallest normal float). -/
theorem minIndexableValue_pos (ra mult off : ℝ) (h0 : 0 < ra) (h1 : ra < 1) :
    0 < LogarithmicMapping.computeMinIndexableValue ra mult off := by
  unfold LogarithmicMapping.computeMinIndexableValue
  have hmn : 0 < minNormalFloat64 := by
    unfold minNormalFloat64
    positivity
  have hB : 0 < minNormalFloat64 * (1 + ra) / (1 - ra) := by
    apply div_pos (mul_pos hmn (by linarith)) (by linarith)
  exact lt_max_of_lt_right hB

/-- Destructing a successful NewLogarithmicMapping call: the mapping is built
from the accuracy, the reciprocal Log1p multiplier, and offset zero. -/
theorem newLogarithmicMapping_ok (α : ℝ) (h0 : 0 < α) (h1 : α < 1)
    (m : LogarithmicMapping) (hm : NewLogarithmicMapping α = .ok m) :
    m = LogarithmicMapping.build α (1 / Real.log (1 + 2 * α / (1 - α))) 0 := by
  rw [NewLogarithmicMapping, if_neg (by push_neg; exact ⟨h0, h1⟩)] at hm
  injection hm with h
  exact h.symm

/-- C1: for every relative accuracy alpha in (0,1) and every value v between
the cached indexable bounds, reconstructing through Value after Index stays
within relative error alpha of v. -/
theorem C1_roundtrip_accuracy (α v : ℝ) (h0 : 0 < α) (h1 : α < 1)
    (m : LogarithmicMapping) (hm : NewLogarithmicMapping α = .ok m)
    (hv1 : m.MinIndexableValue ≤ v) (hv2 : v ≤ m.MaxIndexableValue) :
    |m.Value (m.Index v) / v - 1| ≤ α := by
  have hmdef := newLogarithmicMapping_ok α h0 h1 m hm
  have hne : (1 : ℝ) - α ≠ 0 := ne_of_gt (by linarith)
  have hΓ : 1 + 2 * α / (1 - α) = (1 + α) / (1 - α) := by
    field_simp
    ring
  have hv0 : 0 < v := by
    have hmin : 0 < m.MinIndexableValue := by
      rw [hmdef]
      exact minIndexableValue_pos α _ 0 h0 h1
    linarith
  have hra : m.relativeAccuracy = α := by rw [hmdef]; rfl
  have hres := value_index_roundtrip m ((1 + α) / (1 - α))
    (by rw [lt_div_iff₀ (by linarith)]; linarith)
    (by rw [hmdef, ← hΓ]; rfl)
    (by rw [hra, div_mul_cancel₀ _ hne])
    (by rw [hra]; linarith) v hv0
  rw [hra] at hres
  exact hres

/-- C4: for every value between the cached indexable bounds of a mapping made
by NewLogarithmicMapping, the produced index lies within the signed 16-bit
range, as arranged by computeMinIndexableValue and computeMaxIndexableValue. -/
theorem C4_index_int16_range (α v : ℝ) (h0 : 0 < α) (h1 : α < 1)
    (m : LogarithmicMapping) (hm : NewLogarithmicMapping α = .ok m)
    (hv1 : m.MinIndexableValue ≤ v) (hv2 : v ≤ m.MaxIndexableValue) :
    minInt16 ≤ m.Index v ∧ m.Index v ≤ maxInt16 := by
  have hmdef := newLogarithmicMapping_ok α h0 h1 m hm
  have hv0 : 0 < v := by
    have hmin : 0 < m.MinIndexableValue := by
      rw [hmdef]
      exact minIndexableValue_pos α _ 0 h0 h1
    linarith
  have hγ : (1 : ℝ) < 1 + 2 * α / (1 - α) := by
    have : 0 < 2 * α / (1 - α) := by
      apply div_pos (by linarith) (by linarith)
    linarith
  have hL : 0 < Real.log (1 + 2 * α / (1 - α)) := Real.log_pos hγ
  have hμ : 0 < m.multiplier := by
    rw [hmdef]
    exact one_div_pos.mpr hL
  have hμ0 : m.multiplier ≠ 0 := ne_of_gt hμ
  have hoff : m.normalizedIndexOffset = 0 := by rw [hmdef]; rfl
  obtain ⟨hi_le, hi_ge⟩ := index_bounds m v
  -- lower bound from the exp term of computeMinIndexableValue
  have hminA : Real.exp (((minInt16 : ℝ) - m.normalizedIndexOffset) / m.multiplier + 1)
      ≤ v := by
    have : LogarithmicMapping.computeMinIndexableValue m.relativeAccuracy
        m.multiplier m.normalizedIndexOffset ≤ v := by
      have hmv : m.MinIndexableValue = LogarithmicMapping.computeMinIndexableValue
          m.relativeAccuracy m.multiplier m.normalizedIndexOffset := by
        rw [hmdef]; rfl
      rw [← hmv]
      exact hv1
    exact le_trans (le_max_left _ _) this
  have hlog_min : ((minInt16 : ℝ) - m.normalizedIndexOffset) / m.multiplier + 1
      ≤ Real.log v := (Real.le_log_iff_exp_le hv0).mpr hminA
  have hraw_min : (minInt16 : ℝ) + m.multiplier ≤ rawIndex m v := by
    rw [rawIndex]
    have hstep := mul_le_mul_of_nonneg_right hlog_min hμ.le
    have hexpand : (((minInt16 : ℝ) - m.normalizedIndexOffset) / m.multiplier + 1)
        * m.multiplier = (minInt16 : ℝ) - m.normalizedIndexOffset + m.multiplier := by
      rw [add_mul, one_mul, div_mul_cancel₀ _ hμ0]
    rw [hexpand] at hstep
    linarith
  -- upper bound from the exp term of computeMaxIndexableValue
  have hmaxC : v ≤ Real.exp (((maxInt16 : ℝ) - m.normalizedIndexOffset) / m.multiplier - 1) := by
    have hmv : m.MaxIndexableValue = LogarithmicMapping.computeMaxIndexableValue
        m.relativeAccuracy m.multiplier m.normalizedIndexOffset := by
      rw [hmdef]; rfl
    have : v ≤ LogarithmicMapping.computeMaxIndexableValue m.relativeAccuracy
        m.multiplier m.normalizedIndexOffset := by rw [← hmv]; exact hv2
    exact le_trans this (min_le_left _ _)
  have hlog_max : Real.log v
      ≤ ((maxInt16 : ℝ) - m.normalizedIndexOffset) / m.multiplier - 1 :=
    (Real.log_le_iff_le_exp hv0).mpr hmaxC
  have hraw_max : rawIndex m v ≤ (maxInt16 : ℝ) - m.multiplier := by
    rw [rawIndex]
    have hstep := mul_le_mul_of_nonneg_right hlog_max hμ.le
    have hexpand : (((maxInt16 : ℝ) - m.normalizedIndexOffset) / m.multiplier - 1)
        * m.multiplier = (maxInt16 : ℝ) - m.normalizedIndexOffset - m.multiplier := by
      rw [sub_mul, one_mul, div_mul_cancel₀ _ hμ0]
    rw [hexpand] at hstep
    linarith
  constructor
  · have hcast : ((minInt16 : ℤ) : ℝ) - 1 < (m.Index v : ℝ) := by linarith
    have : (minInt16 : ℤ) - 1 < m.Index v := by exact_mod_cast hcast
    omega
  · have hcast : (m.Index v : ℝ) < ((maxInt16 : ℤ) : ℝ) := by linarith
    have : m.Index v < (maxInt16 : ℤ) := by exact_mod_cast hcast
    omega

/-- Concrete mapping produced by NewLogarithmicMapping at accuracy one half,
used by witnesses. -/
noncomputable def witMappingA : LogarithmicMapping :=
  LogarithmicMapping.build (1/2) (1 / Real.log (1 + 2 * (1/2) / (1 - 1/2))) 0

theorem witMappingA_ok : NewLogarithmicMapping (1/2) = .ok witMappingA := by
  rw [NewLogarithmicMapping, if_neg (by norm_num)]
  rfl

theorem one_lt_log_three : 1 < Real.log 3 := by
  rw [Real.lt_log_iff_exp_lt (by norm_num : (0:ℝ) < 3)]
  have h9 := Real.exp_one_lt_d9
  have hnum : (2.7182818286 : ℝ) < 3 := by norm_num
  linarith

theorem witMappingA_multiplier : witMappingA.multiplier = 1 / Real.log 3 := by
  show (1 : ℝ) / Real.log (1 + 2 * (1/2) / (1 - 1/2)) = 1 / Real.log 3
  norm_num

theorem witMappingA_min_le_one : witMappingA.MinIndexableValue ≤ 1 := by
  have hunf : witMappingA.MinIndexableValue =
      max (Real.exp (((minInt16 : ℝ) - 0) / witMappingA.multiplier + 1))
        (minNormalFloat64 * (1 + 1/2) / (1 - 1/2)) := rfl
  rw [hunf]
  have hlog3 : 1 < Real.log 3 := one_lt_log_three
  apply max_le
  · rw [Real.exp_le_one_iff, witMappingA_multiplier]
    have hL0 : Real.log 3 ≠ 0 := by linarith
    have hdiv : ((minInt16 : ℝ) - 0) / (1 / Real.log 3) = (minInt16 : ℝ) * Real.log 3 := by
      field_simp
    rw [hdiv]
    have hmi : (minInt16 : ℝ) = -32768 := by norm_num [minInt16]
    rw [hmi]
    nlinarith
  · unfold minNormalFloat64
    norm_num

theorem witMappingA_one_le_max : 1 ≤ witMappingA.MaxIndexableValue := by
  have hunf : witMappingA.MaxIndexableValue =
      min (Real.exp (((maxInt16 : ℝ) - 0) / witMappingA.multiplier - 1))
        (Real.exp expOverflow / (1 + 1/2)) := rfl
  rw [hunf]
  have hlog3 : 1 < Real.log 3 := one_lt_log_three
  apply le_min
  · apply Real.one_le_exp
    rw [witMappingA_multiplier]
    have hL0 : Real.log 3 ≠ 0 := by linarith
    have hdiv : ((maxInt16 : ℝ) - 0) / (1 / Real.log 3) = (maxInt16 : ℝ) * Real.log 3 := by
      field_simp
    rw [hdiv]
    have hma : (maxInt16 : ℝ) = 32767 := by norm_num [maxInt16]
    rw [hma]
    nlinarith
  · rw [one_le_div (by norm_num)]
    have h := Real.add_one_le_exp expOverflow
    have hval : (3 : ℝ) / 2 ≤ expOverflow + 1 := by
      unfold expOverflow
      norm_num
    calc (1 : ℝ) + 1/2 = 3/2 := by norm_num
    _ ≤ expOverflow + 1 := hval
    _ ≤ Real.exp expOverflow := h

/-- C1 witness: at accuracy one half and input value one, the reconstruction
error is within one half. -/
theorem C1_witness : |witMappingA.Value (witMappingA.Index 1) / 1 - 1| ≤ 1/2 :=
  C1_roundtrip_accuracy (1/2) 1 (by norm_num) (by norm_num) witMappingA witMappingA_ok
    witMappingA_min_le_one witMappingA_one_le_max

/-- C4 witness: at accuracy one half and input value one, the index lies in
the signed 16-bit range. -/
theorem C4_witness : minInt16 ≤ witMappingA.Index 1 ∧ witMappingA.Index 1 ≤ maxInt16 :=
  C4_index_int16_range (1/2) 1 (by norm_num) (by norm_num) witMappingA witMappingA_ok
    witMappingA_min_le_one witMappingA_one_le_max

/-- C7: Equals compares the derived multiplier and offset within absolute
tolerance 1e-12, and a mapping built from accuracy alpha compares equal to one
built from gamma equal to (1 + alpha) / (1 - alpha) with offset zero. -/
theorem C7_equals_tolerance (m o : LogarithmicMapping) (α : ℝ)
    (h0 : 0 < α) (h1 : α < 1) (m₁ m₂ : LogarithmicMapping)
    (e₁ : NewLogarithmicMapping α = .ok m₁)
    (e₂ : NewLogarithmicMappingWithGamma ((1 + α) / (1 - α)) 0 = .ok m₂) :
    (m.Equals o ↔
      (|m.multiplier - o.multiplier| ≤ 1e-12 ∧
        |m.normalizedIndexOffset - o.normalizedIndexOffset| ≤ 1e-12)) ∧
    m₁.Equals m₂ := by
  constructor
  · exact Iff.rfl
  · have hne : (1 : ℝ) - α ≠ 0 := ne_of_gt (by linarith)
    have hγ : 1 < (1 + α) / (1 - α) := by
      rw [lt_div_iff₀ (by linarith)]
      linarith
    have hm₁ := newLogarithmicMapping_ok α h0 h1 m₁ e₁
    have hm₂ : m₂ = LogarithmicMapping.build (1 - 2 / (1 + (1 + α) / (1 - α)))
        (1 / Real.log ((1 + α) / (1 - α))) 0 := by
      rw [NewLogarithmicMappingWithGamma, if_neg (not_le.mpr hγ)] at e₂
      injection e₂ with h
      exact h.symm
    have harg : 1 + 2 * α / (1 - α) = (1 + α) / (1 - α) := by
      field_simp
      ring
    have hmul : m₁.multiplier = m₂.multiplier := by
      rw [hm₁, hm₂]
      show (1 : ℝ) / Real.log (1 + 2 * α / (1 - α)) = 1 / Real.log ((1 + α) / (1 - α))
      rw [harg]
    have hoff : m₁.normalizedIndexOffset = m₂.normalizedIndexOffset := by
      rw [hm₁, hm₂]
      rfl
    refine ⟨?_, ?_⟩ <;> unfold withinTolerance
    · rw [hmul, sub_self, abs_zero]
      norm_num
    · rw [hoff, sub_self, abs_zero]
      norm_num

/-- Concrete mapping produced by NewLogarithmicMappingWithGamma at the gamma
that corresponds to accuracy one half, used by the C7 witness. -/
noncomputable def witMappingG : LogarithmicMapping :=
  LogarithmicMapping.build (1 - 2 / (1 + (1 + 1/2) / (1 - 1/2)))
    (1 / Real.log ((1 + 1/2) / (1 - 1/2))) 0

/-- C7 witness: the accuracy-one-half mapping and the corresponding
gamma-built mapping compare equal. -/
theorem C7_witness : witMappingA.Equals witMappingG :=
  (C7_equals_tolerance witMappingA witMappingA (1/2) (by norm_num) (by norm_num)
    witMappingA witMappingG witMappingA_ok
    (by rw [NewLogarithmicMappingWithGamma, if_neg (by norm_num)]; rfl)).2

/-- Modelled from the spec: the bucket store package (ddsketch/store) is not
under src/. Per the spec a store maps bucket indices to counts; it is held
here as a list of (index, count) bins kept in ascending index order. -/
structure Store where
  bins : List (ℤ × ℤ)

/-- Modelled from the spec: insertion of a count into the sorted bin list,
incrementing the bucket at the given index. -/
def addToBins : List (ℤ × ℤ) → ℤ → ℤ → List (ℤ × ℤ)
  | [], i, c => [(i, c)]
  | (j, k) :: rest, i, c =>
    if i < j then (i, c) :: (j, k) :: rest
    else if i = j then (j, k + c) :: rest
    else (j, k) :: addToBins rest i c

namespace Store

/-- Modelled from the spec: AddWithCount increments the bucket at the index by
the count. -/
def AddWithCount (s : Store) (index count : ℤ) : Store :=
  ⟨addToBins s.bins index count⟩

/-- Modelled from the spec: TotalCount is the sum of all bucket counts. -/
def TotalCount (s : Store) : ℤ := (s.bins.map Prod.snd).sum

/-- Modelled from the spec: IsEmpty is true iff TotalCount is zero. -/
def IsEmpty (s : Store) : Bool := s.TotalCount == 0

/-- Modelled from the spec: MinIndex fails on an empty store and otherwise
returns the smallest index, the head of the ascending bin list. -/
def MinIndex (s : Store) : Except String ℤ :=
  match s.bins with
  | [] => .error "no such element exists"
  | b :: _ => .ok b.1

/-- Modelled from the spec: MaxIndex fails on an empty store and otherwise
returns the largest index, the last of the ascending bin list. -/
def MaxIndex (s : Store) : Except String ℤ :=
  match s.bins.getLast? with
  | none => .error "no such element exists"
  | some b => .ok b.1

/-- Modelled from the spec: scan the ascending bins for the bucket holding the
element at the given zero-based position, clamping to the last bucket. -/
def binsKeyAtPos : List (ℤ × ℤ) → ℤ → ℤ
  | [], _ => 0
  | [(j, _)], _ => j
  | (j, k) :: rest, pos => if pos < k then j else binsKeyAtPos rest (pos - k)

/-- Modelled from the spec: KeyAtRank returns the index of the bucket holding
the element whose zero-based sorted position is the floor of the rank, with
out-of-range ranks clamped to the nearest bucket. -/
noncomputable def KeyAtRank (s : Store) (rank : ℝ) : ℤ :=
  binsKeyAtPos s.bins (max ⌊rank⌋ 0)

/-- Modelled from the spec: MergeWith folds every bucket of the other store
into this one through AddWithCount. -/
def MergeWith (s other : Store) : Store :=
  other.bins.foldl (fun acc b => acc.AddWithCount b.1 b.2) s

end Store

/-- Modelled from the spec: NewDenseStore creates an empty store. -/
def NewDenseStore : Store := ⟨[]⟩

/-- The DDSketch struct of ddsketch.go: one index mapping and one store. -/
structure DDSketch where
  mapping : LogarithmicMapping
  store : Store

/-- LogUnboundedDenseDDSketch of ddsketch.go. -/
noncomputable def LogUnboundedDenseDDSketch (relativeAccuracy : ℝ) :
    Except String DDSketch :=
  match NewLogarithmicMapping relativeAccuracy with
  | .error e => .error e
  | .ok indexMapping => .ok ⟨indexMapping, NewDenseStore⟩

namespace DDSketch

/-- GetCount of ddsketch.go. -/
def GetCount (s : DDSketch) : ℤ := s.store.TotalCount

/-- IsEmpty of ddsketch.go. -/
def IsEmpty (s : DDSketch) : Bool := s.store.IsEmpty

/-- AddWithCount of ddsketch.go. The Go method mutates the receiver and
returns an error; this model returns the updated sketch together with the
optional error message. -/
noncomputable def AddWithCount (s : DDSketch) (value : ℝ) (count : ℤ) :
    DDSketch × Option String :=
  if value < s.mapping.MinIndexableValue ∨ s.mapping.MaxIndexableValue < value then
    (s, some "input value is outside the range that is tracked by the sketch")
  else if count < 0 then
    (s, some "count cannot be negative")
  else
    ({ s with store := s.store.AddWithCount (s.mapping.Index value) count }, none)

/-- Add of ddsketch.go: AddWithCount with count one. -/
noncomputable def Add (s : DDSketch) (value : ℝ) : DDSketch × Option String :=
  s.AddWithCount value 1

/-- GetIndexAtQuantile of ddsketch.go. -/
noncomputable def GetIndexAtQuantile (s : DDSketch) (quantile : ℝ) :
    Except String ℤ :=
  if quantile < 0 ∨ 1 < quantile then
    .error "quantile must be between 0 and 1"
  else if s.GetCount = 0 then
    .error "no such element exists"
  else
    .ok (s.store.KeyAtRank (quantile * ((s.GetCount - 1 : ℤ) : ℝ)))

/-- GetValueAtQuantile of ddsketch.go: the index at the quantile converted back
through Value (the Go NaN paired with the error is dropped by the Except model). -/
noncomputable def GetValueAtQuantile (s : DDSketch) (quantile : ℝ) :
    Except String ℝ :=
  match s.GetIndexAtQuantile quantile with
  | .error e => .error e
  | .ok key => .ok (s.mapping.Value key)

/-- GetMaxValue of ddsketch.go. -/
noncomputable def GetMaxValue (s : DDSketch) : Except String ℝ :=
  match s.store.MaxIndex with
  | .error e => .error e
  | .ok maxIndex => .ok (s.mapping.Value maxIndex)

/-- GetMinValue of ddsketch.go. -/
noncomputable def GetMinValue (s : DDSketch) : Except String ℝ :=
  match s.store.MinIndex with
  | .error e => .error e
  | .ok minIndex => .ok (s.mapping.Value minIndex)

open Classical in
/-- MergeWith of ddsketch.go, modelled like AddWithCount as returning the
updated receiver and the optional error. -/
noncomputable def MergeWith (s other : DDSketch) : DDSketch × Option String :=
  if s.mapping.Equals other.mapping then
    ({ s with store := s.store.MergeWith other.store }, none)
  else
    (s, some "cannot merge sketches with different index mappings")

end DDSketch

/-- C3: AddWithCount fails exactly when the value is outside the indexable
range or the count is negative; on failure the sketch is unchanged, and on
success it only replaces the store by the delegated store insertion at the
mapped index. -/
theorem C3_add_with_count (s : DDSketch) (v : ℝ) (c : ℤ) :
    ((s.AddWithCount v c).2.isSome = true ↔
      (v < s.mapping.MinIndexableValue ∨ s.mapping.MaxIndexableValue < v ∨ c < 0)) ∧
    ((s.AddWithCount v c).2.isSome = true → (s.AddWithCount v c).1 = s) ∧
    ((s.AddWithCount v c).2 = none →
      (s.AddWithCount v c).1 =
        { s with store := s.store.AddWithCount (s.mapping.Index v) c }) := by
  unfold DDSketch.AddWithCount
  by_cases hrange : v < s.mapping.MinIndexableValue ∨ s.mapping.MaxIndexableValue < v
  · rw [if_pos hrange]
    refine ⟨?_, fun _ => rfl, fun h => absurd h (by simp)⟩
    simp only [Option.isSome_some, true_iff]
    tauto
  · rw [if_neg hrange]
    by_cases hcount : c < 0
    · rw [if_pos hcount]
      refine ⟨?_, fun _ => rfl, fun h => absurd h (by simp)⟩
      simp only [Option.isSome_some, true_iff]
      tauto
    · rw [if_neg hcount]
      refine ⟨?_, fun h => absurd h (by simp), fun _ => rfl⟩
      simp only [Option.isSome_none, false_iff]
      tauto

/-- Concrete sketch used by witnesses: the accuracy-one-half mapping over an
empty store. -/
noncomputable def witSketchEmpty : DDSketch := ⟨witMappingA, ⟨[]⟩⟩

/-- C3 witness: adding with a negative count reports an error. -/
theorem C3_witness : (witSketchEmpty.AddWithCount 1 (-1)).2.isSome = true :=
  (C3_add_with_count witSketchEmpty 1 (-1)).1.mpr (Or.inr (Or.inr (by norm_num)))

/-- C5: GetValueAtQuantile fails on a quantile outside the unit interval,
fails on a sketch of total count zero, and otherwise returns the store key at
rank quantile times count minus one, converted back through Value. -/
theorem C5_value_at_quantile (s : DDSketch) (q : ℝ) :
    ((q < 0 ∨ 1 < q) → ∃ e, s.GetValueAtQuantile q = .error e) ∧
    (s.GetCount = 0 → ∃ e, s.GetValueAtQuantile q = .error e) ∧
    (0 ≤ q → q ≤ 1 → s.GetCount ≠ 0 →
      s.GetValueAtQuantile q =
        .ok (s.mapping.Value (s.store.KeyAtRank (q * ((s.GetCount - 1 : ℤ) : ℝ))))) := by
  refine ⟨?_, ?_, ?_⟩
  · intro h
    unfold DDSketch.GetValueAtQuantile DDSketch.GetIndexAtQuantile
    rw [if_pos h]
    exact ⟨_, rfl⟩
  · intro h0
    unfold DDSketch.GetValueAtQuantile DDSketch.GetIndexAtQuantile
    by_cases h : q < 0 ∨ 1 < q
    · rw [if_pos h]
      exact ⟨_, rfl⟩
    · rw [if_neg h, if_pos h0]
      exact ⟨_, rfl⟩
  · intro hq0 hq1 hc
    unfold DDSketch.GetValueAtQuantile DDSketch.GetIndexAtQuantile
    rw [if_neg (by push_neg; exact ⟨hq0, hq1⟩), if_neg hc]

/-- Concrete sketch with a nonzero count used by the C5 witness. -/
noncomputable def witSketchFull : DDSketch := ⟨witMappingA, ⟨[(0, 3)]⟩⟩

/-- C5 witness: on a sketch of count three, the median query returns the
converted key at rank one. -/
theorem C5_witness :
    witSketchFull.GetValueAtQuantile (1/2) =
      .ok (witSketchFull.mapping.Value (witSketchFull.store.KeyAtRank
        ((1/2) * ((witSketchFull.GetCount - 1 : ℤ) : ℝ)))) :=
  (C5_value_at_quantile witSketchFull (1/2)).2.2 (by norm_num) (by norm_num)
    (by decide)

/-- C6: MergeWith fails exactly when the two mappings are not Equals; on
failure the receiver is unchanged (and the other sketch is never touched),
and on success only the store is replaced by the delegated store merge. -/
theorem C6_merge_with (s other : DDSketch) :
    ((s.MergeWith other).2.isSome = true ↔ ¬ s.mapping.Equals other.mapping) ∧
    ((s.MergeWith other).2.isSome = true → (s.MergeWith other).1 = s) ∧
    ((s.MergeWith other).2 = none →
      (s.MergeWith other).1 = { s with store := s.store.MergeWith other.store }) := by
  unfold DDSketch.MergeWith
  by_cases h : s.mapping.Equals other.mapping
  · rw [if_pos h]
    exact ⟨by simp [h], by simp, fun _ => rfl⟩
  · rw [if_neg h]
    exact ⟨by simp [h], fun _ => rfl, by simp⟩

/-- C6 witness: merging a sketch with one sharing the same mapping succeeds. -/
theorem C6_witness : (witSketchEmpty.MergeWith witSketchEmpty).2 = none := by
  have hEq : witSketchEmpty.mapping.Equals witSketchEmpty.mapping := by
    constructor <;> (unfold withinTolerance; rw [sub_self, abs_zero]; norm_num)
  rw [← Option.not_isSome_iff_eq_none]
  intro hs
  exact ((C6_merge_with witSketchEmpty witSketchEmpty).1.mp hs) hEq

/-- C8: on a freshly constructed sketch, quantile, max and min queries all
report the empty-state error for any valid quantile. -/
theorem C8_empty_sketch (ra : ℝ) (s : DDSketch)
    (hs : LogUnboundedDenseDDSketch ra = .ok s) (q : ℝ) (h0 : 0 ≤ q) (h1 : q ≤ 1) :
    (∃ e, s.GetValueAtQuantile q = .error e) ∧
    (∃ e, s.GetMaxValue = .error e) ∧
    (∃ e, s.GetMinValue = .error e) := by
  have hstore : s.store = ⟨[]⟩ := by
    unfold LogUnboundedDenseDDSketch at hs
    cases hm : NewLogarithmicMapping ra with
    | error e => rw [hm] at hs; exact absurd hs (by simp)
    | ok im =>
      rw [hm] at hs
      injection hs with h
      rw [← h]
      rfl
  have hcount : s.GetCount = 0 := by
    unfold DDSketch.GetCount Store.TotalCount
    rw [hstore]
    rfl
  refine ⟨?_, ?_, ?_⟩
  · unfold DDSketch.GetValueAtQuantile DDSketch.GetIndexAtQuantile
    rw [if_neg (by push_neg; exact ⟨h0, h1⟩), if_pos hcount]
    exact ⟨_, rfl⟩
  · have hmax : s.store.MaxIndex = .error "no such element exists" := by
      rw [hstore]
      rfl
    unfold DDSketch.GetMaxValue
    rw [hmax]
    exact ⟨_, rfl⟩
  · have hmin : s.store.MinIndex = .error "no such element exists" := by
      rw [hstore]
      rfl
    unfold DDSketch.GetMinValue
    rw [hmin]
    exact ⟨_, rfl⟩

/-- C8 witness: the queries all fail on a freshly built sketch of accuracy
one half, at quantile zero. -/
theorem C8_witness :
    (∃ e, witSketchEmpty.GetValueAtQuantile 0 = .error e) ∧
    (∃ e, witSketchEmpty.GetMaxValue = .error e) ∧
    (∃ e, witSketchEmpty.GetMinValue = .error e) :=
  C8_empty_sketch (1/2) witSketchEmpty
    (by unfold LogUnboundedDenseDDSketch; rw [witMappingA_ok]; rfl) 0
    (by norm_num) (by norm_num)

/-- The Dataset struct of dataset.go. Dataset values are float64 in Go and
involve only comparisons and sorting, so they are modelled as rationals,
which keeps the whole baseline executable. The Go sort.Float64s standard
library call is modelled by insertion sort, which produces the same result:
the unique ascending reordering of the values. -/
structure Dataset where
  Values : List ℚ
  Count : ℤ
  sorted : Bool

/-- NewDataset of dataset.go: the zero-valued struct. -/
def NewDataset : Dataset := ⟨[], 0, false⟩

namespace Dataset

/-- Add of dataset.go: append the value, bump the count, clear the flag. -/
def Add (d : Dataset) (v : ℚ) : Dataset :=
  ⟨d.Values ++ [v], d.Count + 1, false⟩

/-- The sort method of dataset.go: sorts Values in place (skipped when the
flag is already set) and records the flag. -/
def sort (d : Dataset) : Dataset :=
  if d.sorted then d
  else ⟨List.insertionSort (· ≤ ·) d.Values, d.Count, true⟩

/-- LowerQuantile of dataset.go. The method mutates the receiver through the
in-place sort, so the model returns the updated dataset next to the result;
the Go NaN result is modelled as none. -/
def LowerQuantile (d : Dataset) (q : ℚ) : Dataset × Option ℚ :=
  if q < 0 ∨ 1 < q ∨ d.Count = 0 then (d, none)
  else
    let d2 := d.sort
    (d2, d2.Values[(⌊q * ((d.Count - 1 : ℤ) : ℚ)⌋).toNat]?)

/-- Quantile of dataset.go: delegates to LowerQuantile. -/
def Quantile (d : Dataset) (q : ℚ) : Dataset × Option ℚ := d.LowerQuantile q

/-- Min of dataset.go: sorts, then reads the first slice element. On an empty
dataset the Go slice access panics out of bounds; the model reports that
runtime fault as the error case. -/
def Min (d : Dataset) : Except String (Dataset × ℚ) :=
  let d2 := d.sort
  match d2.Values with
  | [] => .error "runtime error: index out of range"
  | v :: _ => .ok (d2, v)

/-- Max of dataset.go: sorts, then reads the last slice element; like Min the
empty-dataset access is a runtime fault, reported as the error case. -/
def Max (d : Dataset) : Except String (Dataset × ℚ) :=
  let d2 := d.sort
  match d2.Values.getLast? with
  | none => .error "runtime error: index out of range"
  | some v => .ok (d2, v)

end Dataset

/-- Dataset holding 3 then 1, in insertion order, used against C9. -/
def cexDataset : Dataset := ⟨[3, 1], 2, false⟩

/-- C9 counterexample: Quantile sorts the backing Values slice in place, so
after the query the stored sequence is the ascending sort, not the pre-call
insertion order. -/
theorem C9_counterexample :
    (cexDataset.Quantile 0).1.Values = [1, 3] ∧
    cexDataset.Values = [3, 1] ∧
    (cexDataset.Quantile 0).1.Values ≠ cexDataset.Values := by
  refine ⟨?_, rfl, ?_⟩ <;> decide

/-- C9 amended: for a consistent dataset with n > 0 values and a quantile in
the unit interval, Quantile returns the element at position floor of
q * (n - 1) of the values sorted ascending; the dataset afterwards holds an
ascending permutation of the pre-call values (the sort happens in place, so
the stored sequence is its sorted reordering rather than the pre-call order). -/
theorem C9_quantile_sorted (d : Dataset) (q : ℚ)
    (hlen : d.Count = d.Values.length)
    (hpos : 0 < d.Count) (hq0 : 0 ≤ q) (hq1 : q ≤ 1)
    (hflag : d.sorted = true → List.Sorted (· ≤ ·) d.Values) :
    ((d.Quantile q).1.Values).Perm d.Values ∧
    List.Sorted (· ≤ ·) ((d.Quantile q).1.Values) ∧
    (d.Quantile q).2 =
      ((d.Quantile q).1.Values)[(⌊q * ((d.Count - 1 : ℤ) : ℚ)⌋).toNat]? ∧
    (∃ x, (d.Quantile q).2 = some x) := by
  have hcne : d.Count ≠ 0 := ne_of_gt hpos
  have hguard : ¬ (q < 0 ∨ 1 < q ∨ d.Count = 0) := by
    push_neg
    exact ⟨hq0, hq1, hcne⟩
  have heq : d.Quantile q =
      (d.sort, (d.sort).Values[(⌊q * ((d.Count - 1 : ℤ) : ℚ)⌋).toNat]?) := by
    unfold Dataset.Quantile Dataset.LowerQuantile
    rw [if_neg hguard]
  have hperm : (d.sort).Values.Perm d.Values := by
    unfold Dataset.sort
    by_cases h : d.sorted
    · rw [if_pos h]
    · rw [if_neg h]
      exact List.perm_insertionSort (· ≤ ·) d.Values
  have hsorted : List.Sorted (· ≤ ·) (d.sort).Values := by
    unfold Dataset.sort
    by_cases h : d.sorted
    · rw [if_pos h]
      exact hflag (by simpa using h)
    · rw [if_neg h]
      exact List.sorted_insertionSort (· ≤ ·) d.Values
  have hlen2 : (d.sort).Values.length = d.Values.length := hperm.length_eq
  have hinb : (⌊q * ((d.Count - 1 : ℤ) : ℚ)⌋).toNat < (d.sort).Values.length := by
    rw [hlen2]
    have hc1 : (0 : ℚ) ≤ ((d.Count - 1 : ℤ) : ℚ) := by
      have : (1 : ℤ) ≤ d.Count := hpos
      have : (0 : ℤ) ≤ d.Count - 1 := by omega
      exact_mod_cast this
    have hrank_le : q * ((d.Count - 1 : ℤ) : ℚ) ≤ ((d.Count - 1 : ℤ) : ℚ) := by
      nlinarith
    have hfl : ⌊q * ((d.Count - 1 : ℤ) : ℚ)⌋ ≤ d.Count - 1 := by
      have := Int.floor_le_floor hrank_le
      rwa [Int.floor_intCast] at this
    have hlenz : d.Values.length = d.Count.toNat := by omega
    rw [hlenz]
    omega
  rw [heq]
  refine ⟨hperm, hsorted, rfl, ?_⟩
  exact ⟨(d.sort).Values[(⌊q * ((d.Count - 1 : ℤ) : ℚ)⌋).toNat],
    List.getElem?_eq_getElem hinb⟩

/-- C9 witness: on the two-element dataset the median query returns an
element (position zero of the sorted values). -/
theorem C9_witness : ∃ x, (cexDataset.Quantile (1/2)).2 = some x :=
  (C9_quantile_sorted cexDataset (1/2) (by decide) (by decide) (by norm_num)
    (by norm_num) (by intro h; simp [cexDataset] at h)).2.2.2

/-- C10: on an empty dataset, Min and Max hit the out-of-bounds slice access
(a runtime fault, not an error value or sentinel), while LowerQuantile guards
the empty case and returns the NaN sentinel without touching the slice. -/
theorem C10_empty_min_max :
    (∃ e, NewDataset.Min = .error e) ∧
    (∃ e, NewDataset.Max = .error e) ∧
    (∀ q : ℚ, (NewDataset.LowerQuantile q).2 = none ∧
      (NewDataset.LowerQuantile q).1 = NewDataset) := by
  refine ⟨⟨_, rfl⟩, ⟨_, rfl⟩, ?_⟩
  intro q
  have hguard : q < 0 ∨ 1 < q ∨ NewDataset.Count = 0 := Or.inr (Or.inr rfl)
  unfold Dataset.LowerQuantile
  rw [if_pos hguard]
  exact ⟨rfl, rfl⟩

/-- C10 witness: the quantile query at one half on the empty dataset yields
the NaN sentinel. -/
theorem C10_witness : (NewDataset.LowerQuantile (1/2)).2 = none :=
  (C10_empty_min_max.2.2 (1/2)).1

end DDSketchGo
